import Mathlib

/-
  Shallow embedding of the waveform-generation core of the
  ATtiny212/412 USB-PD inverter firmware (src/software/USB_PD_Inverter.ino).

  Machine integers are modelled as Nat with explicit reductions modulo
  2^8 or 2^16 exactly where the C code performs a conversion:
  SIN_ptr is a uint16_t (pre-increment wraps modulo 65536), cnt60 is a
  uint8_t (pre-decrement wraps modulo 256), and the write of -SIN_val to
  the 8-bit CMPBCLRL register is the int-to-uint8 conversion of the
  negated, integer-promoted value.
-/

set_option maxRecDepth 20000

namespace Inverter

/-- The sine lookup table of the firmware: 386 uint8 samples of one full
    period, mid-scale biased at 0x80 (lines 86-112 of the source). -/
def SIN : List Nat := [
  0x80,0x82,0x84,0x86,0x88,0x8a,0x8c,0x8e,0x90,0x92,0x94,0x96,0x98,0x9a,0x9c,0x9e,
  0xa0,0xa2,0xa4,0xa6,0xa8,0xaa,0xac,0xae,0xb0,0xb2,0xb4,0xb6,0xb8,0xb9,0xbb,0xbd,
  0xbf,0xc1,0xc3,0xc4,0xc6,0xc8,0xc9,0xcb,0xcd,0xce,0xd0,0xd2,0xd3,0xd5,0xd6,0xd8,
  0xd9,0xdb,0xdc,0xde,0xdf,0xe0,0xe2,0xe3,0xe4,0xe6,0xe7,0xe8,0xe9,0xea,0xeb,0xed,
  0xee,0xef,0xf0,0xf1,0xf2,0xf2,0xf3,0xf4,0xf5,0xf6,0xf7,0xf7,0xf8,0xf9,0xf9,0xfa,
  0xfa,0xfb,0xfb,0xfc,0xfc,0xfd,0xfd,0xfd,0xfe,0xfe,0xfe,0xfe,0xff,0xff,0xff,0xff,
  0xff,0xff,0xff,0xff,0xff,0xff,0xfe,0xfe,0xfe,0xfe,0xfd,0xfd,0xfd,0xfc,0xfc,0xfb,
  0xfb,0xfa,0xfa,0xf9,0xf9,0xf8,0xf7,0xf7,0xf6,0xf5,0xf4,0xf3,0xf2,0xf2,0xf1,0xf0,
  0xef,0xee,0xed,0xeb,0xea,0xe9,0xe8,0xe7,0xe6,0xe4,0xe3,0xe2,0xe0,0xdf,0xde,0xdc,
  0xdb,0xd9,0xd8,0xd6,0xd5,0xd3,0xd2,0xd0,0xce,0xcd,0xcb,0xc9,0xc8,0xc6,0xc4,0xc3,
  0xc1,0xbf,0xbd,0xbb,0xb9,0xb8,0xb6,0xb4,0xb2,0xb0,0xae,0xac,0xaa,0xa8,0xa6,0xa4,
  0xa2,0xa0,0x9e,0x9c,0x9a,0x98,0x96,0x94,0x92,0x90,0x8e,0x8c,0x8a,0x88,0x86,0x84,
  0x82,0x80,0x7d,0x7b,0x79,0x77,0x75,0x73,0x71,0x6f,0x6d,0x6b,0x69,0x67,0x65,0x63,
  0x61,0x5f,0x5d,0x5b,0x59,0x57,0x55,0x53,0x51,0x4f,0x4d,0x4b,0x49,0x47,0x46,0x44,
  0x42,0x40,0x3e,0x3c,0x3b,0x39,0x37,0x36,0x34,0x32,0x31,0x2f,0x2d,0x2c,0x2a,0x29,
  0x27,0x26,0x24,0x23,0x21,0x20,0x1f,0x1d,0x1c,0x1b,0x19,0x18,0x17,0x16,0x15,0x14,
  0x12,0x11,0x10,0x0f,0x0e,0x0d,0x0d,0x0c,0x0b,0x0a,0x09,0x08,0x08,0x07,0x06,0x06,
  0x05,0x05,0x04,0x04,0x03,0x03,0x02,0x02,0x02,0x01,0x01,0x01,0x01,0x00,0x00,0x00,
  0x00,0x00,0x00,0x00,0x00,0x00,0x00,0x01,0x01,0x01,0x01,0x02,0x02,0x02,0x03,0x03,
  0x04,0x04,0x05,0x05,0x06,0x06,0x07,0x08,0x08,0x09,0x0a,0x0b,0x0c,0x0d,0x0d,0x0e,
  0x0f,0x10,0x11,0x12,0x14,0x15,0x16,0x17,0x18,0x19,0x1b,0x1c,0x1d,0x1f,0x20,0x21,
  0x23,0x24,0x26,0x27,0x29,0x2a,0x2c,0x2d,0x2f,0x31,0x32,0x34,0x36,0x37,0x39,0x3b,
  0x3c,0x3e,0x40,0x42,0x44,0x46,0x47,0x49,0x4b,0x4d,0x4f,0x51,0x53,0x55,0x57,0x59,
  0x5b,0x5d,0x5f,0x61,0x63,0x65,0x67,0x69,0x6b,0x6d,0x6f,0x71,0x73,0x75,0x77,0x79,
  0x7b,0x7d]

/-- sizeof(SIN) in the C source: the number of table entries. -/
def sinSize : Nat := SIN.length

/-- TCD_SYNCEOC_bm bit mask written to TCD0.CTRLE (sync at end of cycle). -/
def TCD_SYNCEOC_bm : Nat := 0x02

/-- TCD_OVF_bm bit mask written to TCD0.INTFLAGS (acknowledge overflow). -/
def TCD_OVF_bm : Nat := 0x01

/-- The machine state touched by the overflow interrupt handler: the three
    firmware globals, the table memory region (read-only data in the C
    program, carried in the state so that the frame of the handler is
    expressible), and the TCD registers the handler can see. -/
structure MachState where
  SIN_ptr  : Nat        -- uint16_t sine wave table pointer
  SIN_val  : Nat        -- uint8_t  sine wave value
  cnt60    : Nat        -- uint8_t  60Hz correction counter
  sin      : List Nat   -- const uint8_t SIN[], read-only waveform table
  CMPASET  : Nat        -- TCD0.CMPASET  (dead time A)
  CMPACLRL : Nat        -- TCD0.CMPACLRL (on-time A, low byte)
  CMPBSET  : Nat        -- TCD0.CMPBSET  (dead time B)
  CMPBCLRL : Nat        -- TCD0.CMPBCLRL (on-time B, low byte)
  CTRLE    : Nat        -- TCD0.CTRLE
  INTFLAGS : Nat        -- TCD0.INTFLAGS
  deriving Repr, DecidableEq

/-- Int-to-uint8 conversion of the unary negation of a uint8 value:
    the C expression (uint8_t)(-v) for v a uint8_t, i.e. twos complement. -/
def negU8 (v : Nat) : Nat := (256 - v % 256) % 256

/-- The pointer advance of line 152 and line 154 of the source:
    if(++SIN_ptr >= sizeof(SIN)) SIN_ptr = 0.  The pre-increment is on a
    uint16_t, hence the reduction modulo 65536. -/
def advance (p : Nat) : Nat :=
  let p1 := (p + 1) % 65536
  if p1 ≥ sinSize then 0 else p1

/-- One invocation of ISR(TCD0_OVF_vect) (lines 147-158 of the source).
    frqPin is the value read from PIN_FRQ this cycle: true means the pin
    reads high (pullup, switch open: low-frequency 50 Hz mode selected),
    false means the pin is pulled low (60 Hz correction mode active).
    Due to short-circuit evaluation of the C conjunction, cnt60 is not
    decremented when the pin reads high. -/
def ISR (frqPin : Bool) (s : MachState) : MachState :=
  let s1 : MachState :=
    { s with CMPACLRL := s.SIN_val,       -- TCD0.CMPACLRL =  SIN_val
             CMPBCLRL := negU8 s.SIN_val, -- TCD0.CMPBCLRL = -SIN_val
             CTRLE    := TCD_SYNCEOC_bm,  -- TCD0.CTRLE    = TCD_SYNCEOC_bm
             INTFLAGS := TCD_OVF_bm }     -- TCD0.INTFLAGS = TCD_OVF_bm
  let p1 := advance s1.SIN_ptr            -- if(++SIN_ptr >= sizeof(SIN)) ...
  if frqPin then
    -- pinRead(PIN_FRQ) nonzero: condition false, --cnt60 not evaluated
    { s1 with SIN_ptr := p1, SIN_val := s1.sin.getD p1 0 }
  else
    let c := (s1.cnt60 + 255) % 256       -- --cnt60 on a uint8_t
    if c = 0 then
      let p2 := advance p1                -- skip one sine value
      { s1 with SIN_ptr := p2, cnt60 := 5, SIN_val := s1.sin.getD p2 0 }
    else
      { s1 with SIN_ptr := p1, cnt60 := c, SIN_val := s1.sin.getD p1 0 }

/-- The startup state: the initializers of the three globals
    (lines 118-120), the table, and the register values established by
    main() before interrupts are enabled (lines 127-134; CMPACLR = 0x80
    and CMPBCLR = 0x7f, of which the handler only ever rewrites the low
    bytes). -/
def initState : MachState :=
  { SIN_ptr  := 0
    SIN_val  := 0x80
    cnt60    := 5
    sin      := SIN
    CMPASET  := 0x03
    CMPACLRL := 0x80
    CMPBSET  := 0x03
    CMPBCLRL := 0x7f
    CTRLE    := 0
    INTFLAGS := 0 }

/-- n invocations of the handler with the frequency pin held at a fixed
    level throughout. -/
def runISR (frqPin : Bool) : Nat → MachState → MachState
  | 0, s => s
  | n + 1, s => ISR frqPin (runISR frqPin n s)

/- ===================  helper lemmas  =================== -/

theorem sinSize_eq : sinSize = 386 := rfl

theorem SIN_length : SIN.length = 386 := rfl

theorem advance_lt (p : Nat) : advance p < 386 := by
  unfold advance
  simp only [sinSize_eq]
  split
  · omega
  · omega

theorem advance_eq (p : Nat) (hp : p < 386) : advance p = (p + 1) % 386 := by
  unfold advance
  simp only [sinSize_eq]
  split
  · omega
  · omega

theorem ISR_true_ptr (s : MachState) : (ISR true s).SIN_ptr = advance s.SIN_ptr := rfl

theorem ISR_true_cnt (s : MachState) : (ISR true s).cnt60 = s.cnt60 := rfl

theorem ISR_false_cnt (s : MachState) :
    (ISR false s).cnt60 =
      if (s.cnt60 + 255) % 256 = 0 then 5 else (s.cnt60 + 255) % 256 := by
  simp only [ISR, Bool.false_eq_true, if_false]
  split
  · rfl
  · rfl

theorem ISR_false_ptr (s : MachState) :
    (ISR false s).SIN_ptr =
      if (s.cnt60 + 255) % 256 = 0
      then advance (advance s.SIN_ptr) else advance s.SIN_ptr := by
  simp only [ISR, Bool.false_eq_true, if_false]
  split
  · rfl
  · rfl

theorem runISR_true_ptr (n : Nat) : (runISR true n initState).SIN_ptr = n % 386 := by
  induction n with
  | zero => rfl
  | succ n ih =>
      have h : (runISR true n initState).SIN_ptr < 386 := by
        rw [ih]; omega
      show (ISR true (runISR true n initState)).SIN_ptr = (n + 1) % 386
      rw [ISR_true_ptr, advance_eq _ h, ih]
      omega

theorem runISR_false_inv (n : Nat) :
    (runISR false n initState).cnt60 = 5 - n % 5 ∧
    (runISR false n initState).SIN_ptr = (n + n / 5) % 386 := by
  induction n with
  | zero => exact ⟨rfl, rfl⟩
  | succ n ih =>
      obtain ⟨hc, hp⟩ := ih
      have hplt : (runISR false n initState).SIN_ptr < 386 := by
        rw [hp]; omega
      have h1 : advance (runISR false n initState).SIN_ptr =
          ((n + n / 5) % 386 + 1) % 386 := by
        rw [advance_eq _ hplt, hp]
      have h2 : advance (advance (runISR false n initState).SIN_ptr) =
          (((n + n / 5) % 386 + 1) % 386 + 1) % 386 := by
        rw [h1]
        exact advance_eq _ (by omega)
      constructor
      · show (ISR false (runISR false n initState)).cnt60 = 5 - (n + 1) % 5
        rw [ISR_false_cnt, hc]
        by_cases h4 : n % 5 = 4
        · have h0 : (5 - n % 5 + 255) % 256 = 0 := by omega
          rw [if_pos h0]
          clear h0 h1 h2 hp hplt hc
          omega
        · have h0 : ¬((5 - n % 5 + 255) % 256 = 0) := by omega
          rw [if_neg h0]
          clear h0 h1 h2 hp hplt hc
          omega
      · show (ISR false (runISR false n initState)).SIN_ptr =
          (n + 1 + (n + 1) / 5) % 386
        rw [ISR_false_ptr, hc]
        by_cases h4 : n % 5 = 4
        · have h0 : (5 - n % 5 + 255) % 256 = 0 := by omega
          rw [if_pos h0, h2]
          clear h0 h1 h2 hp hplt hc
          omega
        · have h0 : ¬((5 - n % 5 + 255) % 256 = 0) := by omega
          rw [if_neg h0, h1]
          clear h0 h1 h2 hp hplt hc
          omega

theorem ISR_CMPACLRL (frqPin : Bool) (s : MachState) :
    (ISR frqPin s).CMPACLRL = s.SIN_val := by
  cases frqPin
  · simp only [ISR, Bool.false_eq_true, if_false]
    split
    · rfl
    · rfl
  · rfl

theorem ISR_CMPBCLRL (frqPin : Bool) (s : MachState) :
    (ISR frqPin s).CMPBCLRL = negU8 s.SIN_val := by
  cases frqPin
  · simp only [ISR, Bool.false_eq_true, if_false]
    split
    · rfl
    · rfl
  · rfl

/- ===================  claim theorems  =================== -/

/-- Claim C1, counterexample: at index 0 the sine table sample plus its
    phase-complement at index (0 + 193) mod 386 sums to 256, not 255
    (both zero-crossing samples are 0x80). -/
theorem claim_C1_counterexample :
    SIN.getD 0 0 + SIN.getD ((0 + 193) % 386) 0 ≠ 255 := by decide

/-- Claim C1 (amended): for every index i in [0, 386) other than the two
    zero crossings i = 0 and i = 193, SIN[i] + SIN[(i + 193) mod 386] = 255;
    at i = 0 and i = 193 the sum is 256. -/
theorem claim_C1_amended :
    (∀ i, i < 386 → i ≠ 0 → i ≠ 193 →
      SIN.getD i 0 + SIN.getD ((i + 193) % 386) 0 = 255) ∧
    SIN.getD 0 0 + SIN.getD ((0 + 193) % 386) 0 = 256 ∧
    SIN.getD 193 0 + SIN.getD ((193 + 193) % 386) 0 = 256 := by
  refine ⟨?_, by decide, by decide⟩
  decide

/-- Claim C1 amended witness: instantiation at index 1. -/
theorem claim_C1_amended_witness :
    SIN.getD 1 0 + SIN.getD ((1 + 193) % 386) 0 = 255 :=
  claim_C1_amended.1 1 (by decide) (by decide) (by decide)

/-- Claim C2, counterexample: after the very first handler invocation from
    the startup state the secondary register holds 0x80 (the twos
    complement of the 0x80 written to the primary register), while
    255 - 0x80 = 0x7f; the handler computes -SIN_val, not 255 - SIN_val. -/
theorem claim_C2_counterexample :
    (ISR true initState).CMPBCLRL ≠ 255 - (ISR true initState).CMPACLRL := by
  decide

/-- Claim C2 (amended): after every invocation of the cycle handler, for
    every state whose cached sample is a uint8 value, the secondary
    duration register CMPBCLRL equals (256 - CMPACLRL) mod 256, the twos
    complement of the primary duration register CMPACLRL (the two agree
    with 255 - CMPACLRL for no value, being off by one throughout). -/
theorem claim_C2_amended (s : MachState) (frqPin : Bool) (h : s.SIN_val < 256) :
    (ISR frqPin s).CMPBCLRL = (256 - (ISR frqPin s).CMPACLRL) % 256 := by
  rw [ISR_CMPBCLRL, ISR_CMPACLRL]
  unfold negU8
  omega

/-- Claim C2 amended witness: instantiation at the startup state. -/
theorem claim_C2_amended_witness :
    initState.SIN_val < 256 ∧
    (ISR true initState).CMPBCLRL = (256 - (ISR true initState).CMPACLRL) % 256 :=
  ⟨by decide, claim_C2_amended initState true (by decide)⟩

/-- Claim C3: with the 60 Hz correction active on every invocation
    (frequency pin low) and the counter starting at its reload value 5 in
    the startup state, the table index after n invocations is
    (n + n / 5) mod 386, i.e. exactly one extra advance every 5
    invocations; in particular after 386 invocations the index has
    advanced by 386 + 386 / 5 = 463 positions modulo 386. -/
theorem claim_C3_skip_rate :
    (∀ n, (runISR false n initState).SIN_ptr = (n + n / 5) % 386) ∧
    (runISR false 386 initState).SIN_ptr = 463 % 386 ∧
    386 + 386 / 5 = 463 := by
  refine ⟨fun n => (runISR_false_inv n).2, ?_, by norm_num⟩
  rw [(runISR_false_inv 386).2]

/-- Claim C4: with the 60 Hz correction never active (frequency pin high,
    50 Hz mode), the index after n invocations from the startup state is
    n mod 386: after exactly 386 invocations it returns to 0, the
    wraparound happening exactly at the 385 to 0 transition, with no
    off-by-one skip or duplicated index. -/
theorem claim_C4_periodicity :
    (∀ n, (runISR true n initState).SIN_ptr = n % 386) ∧
    (runISR true 385 initState).SIN_ptr = 385 ∧
    (runISR true 386 initState).SIN_ptr = 0 := by
  refine ⟨runISR_true_ptr, ?_, ?_⟩
  · rw [runISR_true_ptr]
  · rw [runISR_true_ptr]

/-- Claim C5: the cached-sample invariant SIN_val = SIN[SIN_ptr] holds at
    initialization (the startup table is the sine table and SIN_val is
    initialized to SIN[0] = 0x80) and is re-established by every
    invocation of the handler, which re-reads the table entry at the
    possibly twice-advanced index before returning. -/
theorem claim_C5_cached_sample_inv :
    (initState.sin = SIN ∧
      initState.SIN_val = initState.sin.getD initState.SIN_ptr 0) ∧
    ∀ (s : MachState) (frqPin : Bool),
      (ISR frqPin s).SIN_val = (ISR frqPin s).sin.getD (ISR frqPin s).SIN_ptr 0 := by
  refine ⟨⟨rfl, rfl⟩, fun s frqPin => ?_⟩
  cases frqPin
  · simp only [ISR, Bool.false_eq_true, if_false]
    split
    · rfl
    · rfl
  · rfl

/-- Claim C6: for every state (hence every reachable one) and every value
    of the frequency-mode input, the handler keeps the index inside the
    table: after any invocation SIN_ptr < 386 = SIN.length, so the one
    table access of the handler, made at the updated index, is in range;
    the bound is enforced structurally by the wraparound on both the base
    advance and the skip advance, and the handler has no error branch. -/
theorem claim_C6_index_bound :
    (∀ (s : MachState) (frqPin : Bool), (ISR frqPin s).SIN_ptr < 386) ∧
    SIN.length = 386 := by
  refine ⟨fun s frqPin => ?_, SIN_length⟩
  cases frqPin
  · rw [ISR_false_ptr]
    split
    · exact advance_lt _
    · exact advance_lt _
  · rw [ISR_true_ptr]
    exact advance_lt _

/-- Claim C7: the startup state has table index 0, cached sample 0x80 and
    correction counter 5, and 0x80 is indeed the table entry at index 0. -/
theorem claim_C7_initial_state :
    initState.SIN_ptr = 0 ∧ initState.SIN_val = 0x80 ∧ initState.cnt60 = 5 ∧
    SIN.getD 0 0 = 0x80 :=
  ⟨rfl, rfl, rfl, rfl⟩

/-- Claim C8: the value written to the primary duration register is the
    sample cached before the invocation; when the pre-state satisfies the
    cached-sample invariant this is the table entry at the index as it was
    at entry, not the entry at the advanced index. -/
theorem claim_C8_write_order (s : MachState) (frqPin : Bool) :
    (ISR frqPin s).CMPACLRL = s.SIN_val ∧
    (s.SIN_val = s.sin.getD s.SIN_ptr 0 →
      (ISR frqPin s).CMPACLRL = s.sin.getD s.SIN_ptr 0) := by
  refine ⟨ISR_CMPACLRL frqPin s, fun h => ?_⟩
  rw [ISR_CMPACLRL frqPin s, h]

/-- Claim C8 witness: instantiation at the startup state. -/
theorem claim_C8_write_order_witness :
    (ISR true initState).CMPACLRL = initState.SIN_val ∧
    (ISR true initState).CMPACLRL = initState.sin.getD initState.SIN_ptr 0 :=
  ⟨(claim_C8_write_order initState true).1,
   (claim_C8_write_order initState true).2 (by decide)⟩

/-- Claim C9: every invocation of the handler leaves the waveform table
    and the dead-time compare registers CMPASET and CMPBSET unchanged
    (the handler only mutates SIN_ptr, SIN_val, cnt60, the two duration
    registers, the sync request and the interrupt-flag acknowledge). -/
theorem claim_C9_frame (s : MachState) (frqPin : Bool) :
    (ISR frqPin s).sin = s.sin ∧
    (ISR frqPin s).CMPASET = s.CMPASET ∧
    (ISR frqPin s).CMPBSET = s.CMPBSET := by
  cases frqPin
  · simp only [ISR, Bool.false_eq_true, if_false]
    split
    · exact ⟨rfl, rfl, rfl⟩
    · exact ⟨rfl, rfl, rfl⟩
  · exact ⟨rfl, rfl, rfl⟩

/-- Claim C10: when the frequency pin reads high (low-frequency 50 Hz
    mode selected) the short-circuit conjunction skips the decrement, so
    cnt60 is neither decremented nor reset; consequently a later
    correction-mode invocation behaves exactly as it would have without
    the intervening 50 Hz invocation (the countdown resumes from the
    retained value). -/
theorem claim_C10_cnt_retained (s : MachState) :
    (ISR true s).cnt60 = s.cnt60 ∧
    (ISR false (ISR true s)).cnt60 = (ISR false s).cnt60 := by
  refine ⟨ISR_true_cnt s, ?_⟩
  rw [ISR_false_cnt, ISR_false_cnt, ISR_true_cnt]

end Inverter
